import Mathlib

/-!
Verification of the NoDrift single-domain web crawler against its
natural-language specification.

The development shallowly embeds the crawler's pure logic:

* `crawler/utils.py` — `normalize_url`, `is_same_domain`, `get_absolute_url`
  (the last delegating to Python's `urllib.parse.urljoin`);
* the relevant fragment of CPython's `urllib.parse` (`urlsplit`, `urlparse`,
  `urlunsplit`, `urlunparse`, `urljoin`), which those functions call;
* `crawler/crawler.py` — `Crawler.parse_links`, `Crawler.fetch_and_process`,
  and the dispatch loop of `Crawler.start` as a transition system;
* `app.py` — `WebCrawler.fetch_and_process`, the `WebCrawler.start` loop and
  the `stop_crawl` endpoint as a transition system;
* the `asyncio.Semaphore` admission discipline used by `fetch_and_process`.

Strings are modelled as `List Char` (`Str`).  HTML anchor extraction
(BeautifulSoup) is abstracted: `parse_links` receives the list of `href`
attribute values of the page's anchors, and performs the resolution,
normalization, same-domain filtering and deduplication that the source code
performs on them.
-/

set_option autoImplicit false

namespace NoDrift

/-- Strings are lists of characters; URL manipulation is list manipulation. -/
abbrev Str := List Char

/-- Convert a Lean string literal to the `Str` model. -/
def S (s : String) : Str := s.data

/-! ### CPython `urllib.parse`: character classes and pre-cleaning -/

/-- `scheme_chars` of `urllib.parse`: ASCII letters, digits, `+` (code 43),
`-` (code 45), `.` (code 46), written as code-point ranges. -/
def isSchemeChar (c : Char) : Bool :=
  (65 ≤ c.toNat && c.toNat ≤ 90) || (97 ≤ c.toNat && c.toNat ≤ 122) ||
  (48 ≤ c.toNat && c.toNat ≤ 57) || c.toNat == 43 || c.toNat == 45 || c.toNat == 46

/-- `url[0].isascii() and url[0].isalpha()`: an ASCII letter. -/
def isAsciiAlpha (c : Char) : Bool :=
  (65 ≤ c.toNat && c.toNat ≤ 90) || (97 ≤ c.toNat && c.toNat ≤ 122)

/-- WHATWG C0-control-or-space characters, stripped from the front of a URL. -/
def isC0OrSpace (c : Char) : Bool := c.toNat ≤ 32

/-- `_UNSAFE_URL_BYTES_TO_REMOVE`: tab (9), carriage return (13), line
feed (10). -/
def isUnsafeByte (c : Char) : Bool := c.toNat == 9 || c.toNat == 13 || c.toNat == 10

/-- `urlsplit` pre-cleaning: left-strip C0 controls and spaces, then remove
every tab, CR and LF. -/
def preClean (url : Str) : Str :=
  (url.dropWhile isC0OrSpace).filter (fun c => !isUnsafeByte c)

/-! ### `urlsplit` -/

/-- Result of `urllib.parse.urlsplit`. -/
structure SplitResult where
  scheme : Str
  netloc : Str
  path : Str
  query : Str
  fragment : Str
deriving DecidableEq, Repr

/-- The scheme-detection step of `urlsplit`: split at the first `:` when the
text before it is a nonempty run of scheme characters starting with an ASCII
letter; the detected scheme is lowercased.  Returns `([], url)` when no scheme
is detected. -/
def splitScheme (url : Str) : Str × Str :=
  let pre := url.takeWhile (fun c => c != ':')
  match url.dropWhile (fun c => c != ':') with
  | [] => ([], url)
  | _ :: rest =>
    if pre ≠ [] ∧ isAsciiAlpha pre.headI = true ∧ (∀ c ∈ pre, isSchemeChar c = true)
    then (pre.map Char.toLower, rest)
    else ([], url)

/-- Characters terminating the network-location component (`_splitnetloc`). -/
def isNetlocDelim (c : Char) : Bool := c == '/' || c == '?' || c == '#'

/-- `_splitnetloc`, fused with its guard: when the remainder starts with `//`,
the netloc runs up to the first `/`, `?` or `#`. -/
def splitNetloc (rest : Str) : Str × Str :=
  match rest with
  | '/' :: '/' :: r =>
    (r.takeWhile (fun c => !isNetlocDelim c), r.dropWhile (fun c => !isNetlocDelim c))
  | _ => ([], rest)

/-- Split off the fragment at the first `#` (empty fragment when there is
none), as in `url.split('#', 1)` guarded by `'#' in url`. -/
def splitFragment (s : Str) : Str × Str :=
  (s.takeWhile (fun c => c != '#'), (s.dropWhile (fun c => c != '#')).tail)

/-- Split off the query at the first `?` (empty query when there is none). -/
def splitQuery (s : Str) : Str × Str :=
  (s.takeWhile (fun c => c != '?'), (s.dropWhile (fun c => c != '?')).tail)

/-- `urllib.parse.urlsplit` with a default scheme.  Returns `none` where
CPython raises `ValueError`.  CPython has two error paths on the netloc:
mismatched `[`/`]` brackets (and bracketed hosts failing IPv6/IPvFuture
validation), and `_checknetloc`, which rejects a non-ASCII netloc whose NFKC
normalization introduces one of `/?#@:` — on an all-ASCII netloc
`_checknetloc` returns immediately and never raises.  Unicode NFKC
normalization and IPv6 host validation are outside the modelled fragment, so
the model maps every netloc containing a bracket or a non-ASCII character to
the error case: on bracket-free all-ASCII netlocs it agrees with CPython
exactly, and everywhere else it errs only on the side of `none` (never
returning a value where CPython raises).  Every theorem asserting a `some`
result therefore restricts to bracket-free ASCII netlocs. -/
def urlsplitD (dflt : Str) (url0 : Str) : Option SplitResult :=
  let url := preClean url0
  let sr := splitScheme url
  let scheme := if sr.1 = [] then dflt else sr.1
  let nl := splitNetloc sr.2
  if '[' ∈ nl.1 ∨ ']' ∈ nl.1 ∨ ∃ c ∈ nl.1, 128 ≤ c.toNat then none
  else
    let fr := splitFragment nl.2
    let qr := splitQuery fr.1
    some ⟨scheme, nl.1, qr.1, qr.2, fr.2⟩

/-! ### `urlparse` (params splitting) -/

/-- Result of `urllib.parse.urlparse`. -/
structure ParseResult where
  scheme : Str
  netloc : Str
  path : Str
  params : Str
  query : Str
  fragment : Str
deriving DecidableEq, Repr

/-- `uses_params` from `urllib.parse`. -/
def uses_params : List Str :=
  [S "", S "ftp", S "hdl", S "prospero", S "http", S "imap", S "https",
   S "shttp", S "rtsp", S "rtspu", S "sip", S "sips", S "mms", S "sftp", S "tel"]

/-- `_splitparams`, only ever invoked when `;` occurs in the path: split at the
first `;` that follows the last `/` (or the first `;` at all when the path has
no `/`). -/
def splitParams (url : Str) : Str × Str :=
  if '/' ∈ url then
    let suffix := (url.reverse.takeWhile (fun c => c != '/')).reverse
    let pre := url.take (url.length - suffix.length)
    if ';' ∈ suffix then
      (pre ++ suffix.takeWhile (fun c => c != ';'),
       (suffix.dropWhile (fun c => c != ';')).tail)
    else (url, [])
  else
    (url.takeWhile (fun c => c != ';'), (url.dropWhile (fun c => c != ';')).tail)

/-- `urllib.parse.urlparse` with a default scheme. -/
def urlparseD (dflt : Str) (url : Str) : Option ParseResult := do
  let s ← urlsplitD dflt url
  if s.scheme ∈ uses_params ∧ ';' ∈ s.path then
    return ⟨s.scheme, s.netloc, (splitParams s.path).1, (splitParams s.path).2,
            s.query, s.fragment⟩
  else
    return ⟨s.scheme, s.netloc, s.path, [], s.query, s.fragment⟩

/-! ### `urlunsplit` / `urlunparse` -/

/-- `urllib.parse.urlunsplit`. -/
def urlunsplit (scheme netloc url query fragment : Str) : Str :=
  let url1 :=
    if netloc ≠ [] ∨ (url.take 2 = S "//") then
      let u2 := if url ≠ [] ∧ url.take 1 ≠ S "/" then '/' :: url else url
      '/' :: '/' :: (netloc ++ u2)
    else url
  let url2 := if scheme ≠ [] then scheme ++ ':' :: url1 else url1
  let url3 := if query ≠ [] then url2 ++ '?' :: query else url2
  if fragment ≠ [] then url3 ++ '#' :: fragment else url3

/-- `urllib.parse.urlunparse`. -/
def urlunparse (r : ParseResult) : Str :=
  let url := if r.params ≠ [] then r.path ++ ';' :: r.params else r.path
  urlunsplit r.scheme r.netloc url r.query r.fragment

/-! ### `urljoin` -/

/-- `uses_relative` from `urllib.parse`. -/
def uses_relative : List Str :=
  [S "", S "ftp", S "http", S "gopher", S "nntp", S "imap", S "wais", S "file",
   S "https", S "shttp", S "mms", S "prospero", S "rtsp", S "rtspu", S "sftp",
   S "svn", S "svn+ssh", S "ws", S "wss"]

/-- `uses_netloc` from `urllib.parse`. -/
def uses_netloc : List Str :=
  [S "", S "ftp", S "http", S "gopher", S "nntp", S "telnet", S "imap",
   S "wais", S "file", S "mms", S "https", S "shttp", S "snews", S "prospero",
   S "rtsp", S "rtspu", S "rsync", S "svn", S "svn+ssh", S "sftp", S "nfs",
   S "git", S "git+ssh", S "ws", S "wss", S "itms-services"]

/-- Keep the first and last elements, dropping empty interior segments:
`segments[1:-1] = filter(None, segments[1:-1])`. -/
def filterInteriorAux : List Str → List Str
  | [] => []
  | [b] => [b]
  | b :: t => if b = [] then filterInteriorAux t else b :: filterInteriorAux t

/-- Apply `filterInteriorAux` to everything after the first segment. -/
def filterInterior : List Str → List Str
  | [] => []
  | a :: rest => a :: filterInteriorAux rest

/-- The `..` / `.` resolution loop of `urljoin`. -/
def resolveSegments (acc : List Str) : List Str → List Str
  | [] => acc
  | seg :: rest =>
    if seg = S ".." then resolveSegments acc.dropLast rest
    else if seg = S "." then resolveSegments acc rest
    else resolveSegments (acc ++ [seg]) rest

/-- Last element of a list of segments (`segments[-1]`); the segment lists in
`urljoin` are always nonempty, and `[]` is returned otherwise. -/
def lastSegment : List Str → Str
  | [] => []
  | [a] => a
  | _ :: t => lastSegment t

/-- `urllib.parse.urljoin`.  `none` models a propagated `ValueError`. -/
def urljoin (base url : Str) : Option Str := do
  if base = [] then return url
  if url = [] then return base
  let b ← urlparseD [] base
  let r ← urlparseD b.scheme url
  if r.scheme ≠ b.scheme ∨ r.scheme ∉ uses_relative then return url
  let netloc :=
    if r.scheme ∈ uses_netloc then (if r.netloc ≠ [] then r.netloc else b.netloc)
    else r.netloc
  if r.scheme ∈ uses_netloc ∧ r.netloc ≠ [] then
    return urlunparse ⟨r.scheme, r.netloc, r.path, r.params, r.query, r.fragment⟩
  if r.path = [] ∧ r.params = [] then
    let query := if r.query = [] then b.query else r.query
    return urlunparse ⟨r.scheme, netloc, b.path, b.params, query, r.fragment⟩
  let baseParts0 := b.path.splitOn '/'
  let baseParts := if lastSegment baseParts0 ≠ [] then baseParts0.dropLast else baseParts0
  let segments :=
    if r.path.take 1 = S "/" then r.path.splitOn '/'
    else filterInterior (baseParts ++ r.path.splitOn '/')
  let resolved0 := resolveSegments [] segments
  let resolved :=
    if lastSegment segments = S "." ∨ lastSegment segments = S ".." then
      resolved0 ++ [([] : Str)]
    else resolved0
  let joined := (resolved.intersperse (S "/")).flatten
  return urlunparse ⟨r.scheme, netloc, if joined = [] then S "/" else joined,
                     r.params, r.query, r.fragment⟩

/-! ### `crawler/utils.py` -/

/-- `utils.normalize_url`: `parsed.scheme + "://" + parsed.netloc +
parsed.path.rstrip('/')`.  `none` models a propagated `ValueError` from
`urlparse`. -/
def normalize_url (url : Str) : Option Str := do
  let p ← urlparseD [] url
  return p.scheme ++ S "://" ++ p.netloc ++ p.path.rdropWhile (fun c => c == '/')

/-- `utils.is_same_domain`: compare the two netlocs; a `ValueError` from
either parse yields `False`. -/
def is_same_domain (base_url link : Str) : Bool :=
  match urlparseD [] base_url, urlparseD [] link with
  | some b, some l => b.netloc == l.netloc
  | _, _ => false

/-- `utils.get_absolute_url`: `urljoin(base, link)`. -/
def get_absolute_url (base link : Str) : Option Str := urljoin base link

/-! ### `crawler/crawler.py`: `Crawler.parse_links`

BeautifulSoup's anchor extraction is abstracted: the function receives the
list of `href` attribute values of the page's anchors (`a['href']` for each
`<a href=...>`), and performs the per-href resolution, normalization and
same-domain filtering of the source loop.  A `ValueError` escaping the loop
(modelled `none`) aborts the whole call, as in Python. -/

/-- The collection loop of `parse_links`: resolve each href against `base`,
normalize it, and keep it when it is same-domain with `base_url`. -/
def collectLinks (base_url base : Str) : List Str → Option (List Str)
  | [] => some []
  | href :: rest => do
    let link ← get_absolute_url base href
    let normalized ← normalize_url link
    let tailLinks ← collectLinks base_url base rest
    if is_same_domain base_url normalized then return normalized :: tailLinks
    else return tailLinks

/-- `Crawler.parse_links`: the collection loop followed by `list(set(links))`
(set semantics; the Python iteration order over the set is arbitrary, so only
the set of returned links is meaningful). -/
def parse_links (base_url base : Str) (hrefs : List Str) : Option (List Str) :=
  (collectLinks base_url base hrefs).map List.dedup

/-! ### `Crawler.fetch_and_process` -/

/-- Python string comparison (code-point lexicographic), for `sorted(links)`. -/
def lexLe : Str → Str → Bool
  | [], _ => true
  | _ :: _, [] => false
  | a :: as, b :: bs => if a = b then lexLe as bs else decide (a.toNat < b.toNat)

/-- Insertion into a sorted list, for `sorted(links)`. -/
def insertLe (x : Str) : List Str → List Str
  | [] => [x]
  | y :: ys => if lexLe x y then x :: y :: ys else y :: insertLe x ys

/-- Python's `sorted` on a list of strings. -/
def pySorted (l : List Str) : List Str := l.foldr insertLe []

/-- The mutable fields of a `Crawler` touched by `fetch_and_process` and the
`start` dispatch loop, plus one instrumentation field: `dispatched` records
the URLs for which a fetch task was ever created (history variable, not
program state). -/
structure CrawlState where
  to_visit : List Str
  visited : List Str
  pages_crawled : Nat
  error_count : Nat
  dispatched : List Str
deriving DecidableEq, Repr

/-- Outcome of `self.session.get(url, timeout=10)` together with reading the
body: either a response (status, content type, and the hrefs of the anchors of
the HTML body) or a transport/timeout exception. -/
inductive FetchOutcome where
  | response (status : Nat) (contentType : Str) (hrefs : List Str)
  | exc
deriving DecidableEq, Repr

/-- Does `hay` start with `needle`? -/
def startsWithStr : Str → Str → Bool
  | [], _ => true
  | _ :: _, [] => false
  | a :: as, b :: bs => a == b && startsWithStr as bs

/-- Python's `needle in hay` substring test. -/
def containsSub (needle : Str) : Str → Bool
  | [] => startsWithStr needle []
  | c :: t => startsWithStr needle (c :: t) || containsSub needle t

/-- The content-type marker checked by `'text/html' not in
response.content_type`. -/
def htmlMime : Str := S "text/html"

/-- `Crawler.fetch_and_process` as a state transformer (logging omitted; it
does not touch the modelled state):
status `>= 400` → skip; non-HTML content type → skip; otherwise count the page,
parse links, and append the unvisited ones (in `sorted` order) to `to_visit`.
A transport exception, or a `ValueError` from `parse_links`, lands in the
`except` branch which increments `error_count`. -/
def fetch_and_process (base_url : Str) (st : CrawlState) (url : Str)
    (out : FetchOutcome) : CrawlState :=
  match out with
  | .exc => { st with error_count := st.error_count + 1 }
  | .response status ctype hrefs =>
    if 400 ≤ status then st
    else if ¬ (containsSub htmlMime ctype = true) then st
    else
      let st1 := { st with pages_crawled := st.pages_crawled + 1 }
      match parse_links base_url url hrefs with
      | none => { st1 with error_count := st1.error_count + 1 }
      | some links =>
        { st1 with
          to_visit := st1.to_visit ++
            (pySorted links).filter (fun l => decide (l ∉ st1.visited)) }

/-! ### The `Crawler.start` dispatch loop as a transition system

The loop repeatedly pops the head of `to_visit`; a URL not yet in `visited`
is added to `visited` and a fetch task is created for it, a URL already in
`visited` is discarded.  Completed tasks mutate the state through
`fetch_and_process`.  The transition relation over-approximates the
scheduler: it allows dispatch and completion steps in any order, so every
behaviour of the source loop (including its `len(tasks) <
self.semaphore._value` batching) is included. -/
inductive CrawlStep (base_url : Str) : CrawlState → CrawlState → Prop
  | dispatch_new (st : CrawlState) (u : Str) (rest : List Str) :
      st.to_visit = u :: rest → u ∉ st.visited →
      CrawlStep base_url st
        { st with to_visit := rest, visited := u :: st.visited,
                  dispatched := st.dispatched ++ [u] }
  | dispatch_skip (st : CrawlState) (u : Str) (rest : List Str) :
      st.to_visit = u :: rest → u ∈ st.visited →
      CrawlStep base_url st { st with to_visit := rest }
  | complete (st : CrawlState) (u : Str) (out : FetchOutcome) :
      u ∈ st.dispatched →
      CrawlStep base_url st (fetch_and_process base_url st u out)

/-- Reflexive-transitive closure of `CrawlStep`. -/
inductive CrawlReachable (base_url : Str) : CrawlState → CrawlState → Prop
  | refl (st : CrawlState) : CrawlReachable base_url st st
  | step {s t u : CrawlState} : CrawlReachable base_url s t →
      CrawlStep base_url t u → CrawlReachable base_url s u

/-- The state after `Crawler.__init__`: frontier seeded with the (already
normalized) base URL, nothing visited, counters zero. -/
def initState (base_url : Str) : CrawlState := ⟨[base_url], [], 0, 0, []⟩

/-! ### `app.py`: `WebCrawler` and the `stop_crawl` endpoint -/

/-- Lifecycle labels of a crawl session (from the point the accessibility
probe has passed; the pre-probe label and the two `invalid` branches are not
reachable in this fragment but are part of the state space). -/
inductive WebStatus where
  | running
  | completed
  | error
  | invalid
  | stopped
deriving DecidableEq, Repr

/-- Joint state of one `WebCrawler` run and its `crawl_sessions` entry:
`selfStatus` is the `self.status` attribute read by the dispatch loop,
`sessionStatus` is `crawl_sessions[session_id]["status"]` written by the
`stop_crawl` endpoint and by the crawler's own updates. -/
structure WebState where
  selfStatus : WebStatus
  sessionStatus : WebStatus
  queue : List Str
  visited : List Str
  pages_crawled : Nat
  error_count : Nat
deriving DecidableEq, Repr

/-- `WebCrawler.fetch_and_process`: like the base class but requiring status
exactly 200, and appending unvisited links to the queue passed by `start`. -/
def web_fetch_and_process (base_url : Str) (st : WebState) (url : Str)
    (out : FetchOutcome) : WebState :=
  match out with
  | .exc => { st with error_count := st.error_count + 1 }
  | .response status ctype hrefs =>
    if status ≠ 200 then st
    else if ¬ (containsSub htmlMime ctype = true) then st
    else
      let st1 := { st with pages_crawled := st.pages_crawled + 1 }
      match parse_links base_url url hrefs with
      | none => { st1 with error_count := st1.error_count + 1 }
      | some links =>
        { st1 with
          queue := st1.queue ++
            (pySorted links).filter (fun l => decide (l ∉ st1.visited)) }

/-- Events of the `WebCrawler.start` loop interleaved with the external API:
a `stop_crawl` call, one iteration of the `while queue and self.status ==
"running"` loop (with the outcome of the fetch it gathers), or the `finally`
block that runs when the loop exits. -/
inductive WebEvent where
  | stopSignal
  | loopIter (out : FetchOutcome)
  | finishStep
deriving Repr

/-- One event of the `WebCrawler` session, as written in `app.py`:
`stop_crawl` writes only `crawl_sessions[session_id]["status"]`; the loop
guard reads only `self.status`; the `finally` block promotes a still-running
`self.status` to `completed` and copies it into the session entry.  Events
whose guard does not hold leave the state unchanged. -/
def webStep (base_url : Str) (st : WebState) (ev : WebEvent) : WebState :=
  match ev with
  | .stopSignal => { st with sessionStatus := .stopped }
  | .loopIter out =>
    match st.queue with
    | [] => st
    | u :: rest =>
      if st.selfStatus ≠ .running then st
      else if u ∈ st.visited then { st with queue := rest }
      else web_fetch_and_process base_url
             { st with queue := rest, visited := u :: st.visited } u out
  | .finishStep =>
    if st.queue = [] ∨ st.selfStatus ≠ .running then
      let final := if st.selfStatus = .running then WebStatus.completed
                   else st.selfStatus
      { st with selfStatus := final, sessionStatus := final }
    else st

/-- Run a `WebCrawler` session through a list of events. -/
def webRun (base_url : Str) (st : WebState) (evs : List WebEvent) : WebState :=
  evs.foldl (webStep base_url) st

/-- The session state right after the accessibility probe passes: both labels
`running`, queue seeded with the base URL. -/
def webInit (base_url : Str) : WebState := ⟨.running, .running, [base_url], [], 0, 0⟩

/-! ### The `asyncio.Semaphore` admission gate

`Crawler.__init__` creates `asyncio.Semaphore(max_concurrent)` and every
`fetch_and_process` body runs inside `async with self.semaphore`.  The
semaphore's admission discipline: acquiring requires a positive internal
value and decrements it; leaving the `async with` releases, incrementing it.
`inFlight` counts operations past admission and not yet released. -/
structure SemState where
  value : Nat
  inFlight : Nat
deriving DecidableEq, Repr

/-- Admission steps of the semaphore as used by `fetch_and_process`. -/
inductive SemStep : SemState → SemState → Prop
  | acquire (s : SemState) : 0 < s.value → SemStep s ⟨s.value - 1, s.inFlight + 1⟩
  | release (s : SemState) : 0 < s.inFlight → SemStep s ⟨s.value + 1, s.inFlight - 1⟩

/-- States reachable from a freshly constructed `Semaphore(n)` with no
operation in flight. -/
inductive SemReachable (n : Nat) : SemState → Prop
  | init : SemReachable n ⟨n, 0⟩
  | step {s t : SemState} : SemReachable n s → SemStep s t → SemReachable n t

/-! ## Supporting lemmas -/

/-- `Char.toNat` is injective. -/
theorem char_toNat_inj {c d : Char} (h : c.toNat = d.toNat) : c = d :=
  Char.ext (UInt32.ext h)

/-- Characters with distinct code points are `!=`. -/
theorem char_bne_of_toNat_ne {c d : Char} (h : c.toNat ≠ d.toNat) : (c != d) = true := by
  rw [bne_iff_ne]
  exact fun e => h (congrArg Char.toNat e)

/-- `isSchemeChar` as a code-point predicate. -/
theorem isSchemeChar_iff {c : Char} : isSchemeChar c = true ↔
    (65 ≤ c.toNat ∧ c.toNat ≤ 90) ∨ (97 ≤ c.toNat ∧ c.toNat ≤ 122) ∨
    (48 ≤ c.toNat ∧ c.toNat ≤ 57) ∨ c.toNat = 43 ∨ c.toNat = 45 ∨ c.toNat = 46 := by
  simp [isSchemeChar, Bool.or_eq_true, Bool.and_eq_true, decide_eq_true_eq, or_assoc]

/-- `isAsciiAlpha` as a code-point predicate. -/
theorem isAsciiAlpha_iff {c : Char} : isAsciiAlpha c = true ↔
    (65 ≤ c.toNat ∧ c.toNat ≤ 90) ∨ (97 ≤ c.toNat ∧ c.toNat ≤ 122) := by
  simp [isAsciiAlpha, Bool.or_eq_true, Bool.and_eq_true, decide_eq_true_eq]

/-- `isUnsafeByte` refuted, as a code-point predicate. -/
theorem isUnsafeByte_eq_false_iff {c : Char} : isUnsafeByte c = false ↔
    c.toNat ≠ 9 ∧ c.toNat ≠ 13 ∧ c.toNat ≠ 10 := by
  simp [isUnsafeByte, not_or, and_assoc]

/-- A scheme character is not a colon, is not removed by `preClean`, and is
not stripped from the front of a URL. -/
theorem schemeChar_facts {c : Char} (h : isSchemeChar c = true) :
    (c != ':') = true ∧ isUnsafeByte c = false ∧ isC0OrSpace c = false := by
  rw [isSchemeChar_iff] at h
  have hcolon : (':').toNat = 58 := rfl
  refine ⟨char_bne_of_toNat_ne (by omega), ?_, ?_⟩
  · rw [isUnsafeByte_eq_false_iff]
    omega
  · simp only [isC0OrSpace, decide_eq_false_iff_not]
    omega

/-- Code point of `Char.toLower`. -/
theorem toLower_toNat (c : Char) :
    (Char.toLower c).toNat =
      if c.toNat ≥ 65 ∧ c.toNat ≤ 90 then c.toNat + 32 else c.toNat := by
  unfold Char.toLower
  split
  · next hcond =>
    rw [if_pos hcond, Char.ofNat, dif_pos (Or.inl (by omega : c.toNat + 32 < 55296))]
    rfl
  · next hcond => rw [if_neg hcond]

/-- Lowercasing is idempotent. -/
theorem toLower_idem (c : Char) : (Char.toLower c).toLower = Char.toLower c := by
  apply char_toNat_inj
  have h1 := toLower_toNat c
  rw [toLower_toNat, h1]
  split_ifs at * <;> omega

/-- Lowercasing preserves scheme characters. -/
theorem toLower_schemeChar {c : Char} (h : isSchemeChar c = true) :
    isSchemeChar (Char.toLower c) = true := by
  rw [isSchemeChar_iff] at h ⊢
  rw [toLower_toNat]
  split_ifs <;> omega

/-- Lowercasing preserves ASCII letters. -/
theorem toLower_asciiAlpha {c : Char} (h : isAsciiAlpha c = true) :
    isAsciiAlpha (Char.toLower c) = true := by
  rw [isAsciiAlpha_iff] at h ⊢
  rw [toLower_toNat]
  split_ifs <;> omega

/-- Lowercasing a list of characters is idempotent. -/
theorem map_toLower_idem (s : Str) :
    (s.map Char.toLower).map Char.toLower = s.map Char.toLower := by
  induction s with
  | nil => rfl
  | cons c t ih => simp [toLower_idem, ih]

/-- `takeWhile`/`dropWhile` on a list all of whose elements satisfy the
predicate. -/
theorem takeWhile_all {α : Type} (q : α → Bool) :
    ∀ l : List α, (∀ c ∈ l, q c = true) →
      l.takeWhile q = l ∧ l.dropWhile q = []
  | [], _ => ⟨rfl, rfl⟩
  | a :: t, h => by
    have ha : q a = true := h a (List.mem_cons_self _ _)
    have ht := takeWhile_all q t (fun c hc => h c (List.mem_cons_of_mem _ hc))
    rw [List.takeWhile_cons_of_pos ha, List.dropWhile_cons_of_pos ha, ht.1, ht.2]
    exact ⟨rfl, rfl⟩

/-- `takeWhile`/`dropWhile` across a satisfied block followed by a failing
element. -/
theorem split_at_stop {α : Type} (q : α → Bool) (l₁ : List α) (a : α) (l₂ : List α)
    (h1 : ∀ x ∈ l₁, q x = true) (h2 : q a = false) :
    (l₁ ++ a :: l₂).takeWhile q = l₁ ∧ (l₁ ++ a :: l₂).dropWhile q = a :: l₂ := by
  induction l₁ with
  | nil =>
    simp only [List.nil_append]
    rw [List.takeWhile_cons_of_neg (by simp [h2]), List.dropWhile_cons_of_neg (by simp [h2])]
    exact ⟨rfl, rfl⟩
  | cons x t ih =>
    have hx : q x = true := h1 x (List.mem_cons_self _ _)
    have ht := ih (fun c hc => h1 c (List.mem_cons_of_mem _ hc))
    simp only [List.cons_append]
    rw [List.takeWhile_cons_of_pos hx, List.dropWhile_cons_of_pos hx, ht.1, ht.2]
    exact ⟨rfl, rfl⟩

/-- `preClean` is the identity on strings with a non-stripped head and no
unsafe bytes. -/
theorem preClean_eq_self (u : Str) (h0 : u = [] ∨ isC0OrSpace u.headI = false)
    (h1 : ∀ c ∈ u, isUnsafeByte c = false) : preClean u = u := by
  unfold preClean
  have hdw : u.dropWhile isC0OrSpace = u := by
    cases u with
    | nil => rfl
    | cons a t =>
      rcases h0 with h | h
      · exact absurd h (by simp)
      · exact List.dropWhile_cons_of_neg (by simp_all [List.headI])
  rw [hdw, List.filter_eq_self.mpr (fun a ha => by rw [h1 a ha]; rfl)]

/-- `preClean` only removes characters. -/
theorem preClean_sublist (url : Str) : (preClean url).Sublist url :=
  (List.filter_sublist _).trans (List.dropWhile_sublist _)

/-- The remainder produced by `splitScheme` is a sublist of the input. -/
theorem splitScheme_snd_sublist (u : Str) : (splitScheme u).2.Sublist u := by
  have hsub : (u.dropWhile (fun c => c != ':')).Sublist u := List.dropWhile_sublist _
  simp only [splitScheme]
  cases hd : u.dropWhile (fun c => c != ':') with
  | nil => exact List.Sublist.refl u
  | cons a rest =>
    rw [hd] at hsub
    have hrest : rest.Sublist u := (List.sublist_cons_self a rest).trans hsub
    dsimp only
    split
    · exact hrest
    · exact List.Sublist.refl u

/-- The netloc produced by `splitNetloc` is a sublist of the input. -/
theorem splitNetloc_fst_sublist (r : Str) : (splitNetloc r).1.Sublist r := by
  simp only [splitNetloc]
  split
  · exact ((List.takeWhile_sublist _).trans (List.sublist_cons_self _ _)).trans
      (List.sublist_cons_self _ _)
  · simp

/-- The netloc computed inside `urlsplitD` is a sublist of the raw input. -/
theorem urlsplit_netloc_sublist (url : Str) :
    (splitNetloc (splitScheme (preClean url)).2).1.Sublist url :=
  ((splitNetloc_fst_sublist _).trans (splitScheme_snd_sublist _)).trans
    (preClean_sublist url)

/-- On bracket-free all-ASCII input, `urlparseD` always succeeds. -/
theorem urlparseD_isSome (dflt url : Str) (h1 : '[' ∉ url) (h2 : ']' ∉ url)
    (h3 : ∀ c ∈ url, c.toNat < 128) :
    ∃ r, urlparseD dflt url = some r := by
  have hnb : ¬ ('[' ∈ (splitNetloc (splitScheme (preClean url)).2).1 ∨
              ']' ∈ (splitNetloc (splitScheme (preClean url)).2).1 ∨
              ∃ c ∈ (splitNetloc (splitScheme (preClean url)).2).1, 128 ≤ c.toNat) := by
    rintro (hc | hc | ⟨c, hc, hge⟩)
    · exact h1 ((urlsplit_netloc_sublist url).mem hc)
    · exact h2 ((urlsplit_netloc_sublist url).mem hc)
    · exact absurd (h3 c ((urlsplit_netloc_sublist url).mem hc)) (by omega)
  have hs : (urlparseD dflt url).isSome = true := by
    simp only [urlparseD, urlsplitD]
    rw [if_neg hnb]
    simp only [Option.bind_eq_bind, Option.some_bind]
    split <;> split <;> rfl
  exact Option.isSome_iff_exists.mp hs

/-- `fetch_and_process` never touches the `dispatched` history nor the
`visited` set (only the dispatch loop does). -/
theorem fetch_and_process_preserves (b : Str) (st : CrawlState) (u : Str)
    (o : FetchOutcome) :
    (fetch_and_process b st u o).dispatched = st.dispatched ∧
    (fetch_and_process b st u o).visited = st.visited := by
  cases o with
  | exc => exact ⟨rfl, rfl⟩
  | response status ctype hrefs =>
    simp only [fetch_and_process]
    split
    · exact ⟨rfl, rfl⟩
    · split
      · exact ⟨rfl, rfl⟩
      · split <;> exact ⟨rfl, rfl⟩

/-- One dispatch-loop step preserves the no-duplicate-dispatch invariant. -/
theorem crawlStep_preserves_inv {b : Str} {s t : CrawlState}
    (h : CrawlStep b s t) (hn : s.dispatched.Nodup)
    (hsub : ∀ u ∈ s.dispatched, u ∈ s.visited) :
    t.dispatched.Nodup ∧ ∀ u ∈ t.dispatched, u ∈ t.visited := by
  cases h with
  | dispatch_new u rest hq hu =>
    refine ⟨?_, ?_⟩
    · exact List.Nodup.append hn (List.nodup_singleton u)
        (fun x hx hx' => hu ((List.mem_singleton.mp hx') ▸ hsub x hx))
    · intro x hx
      rcases List.mem_append.mp hx with h1 | h1
      · exact List.mem_cons_of_mem _ (hsub x h1)
      · exact (List.mem_singleton.mp h1) ▸ List.mem_cons_self _ _
  | dispatch_skip u rest hq hu => exact ⟨hn, hsub⟩
  | complete u o hu =>
    obtain ⟨h1, h2⟩ := fetch_and_process_preserves b s u o
    rw [h1, h2]
    exact ⟨hn, hsub⟩

/-- The no-duplicate-dispatch invariant holds in every reachable state. -/
theorem crawlReachable_inv {b : Str} {s t : CrawlState} (h : CrawlReachable b s t)
    (hn : s.dispatched.Nodup) (hsub : ∀ u ∈ s.dispatched, u ∈ s.visited) :
    t.dispatched.Nodup ∧ ∀ u ∈ t.dispatched, u ∈ t.visited := by
  induction h with
  | refl => exact ⟨hn, hsub⟩
  | step hr hstep ih => exact crawlStep_preserves_inv hstep ih.1 ih.2

/-- The semaphore's internal value and the in-flight count always sum to the
construction-time bound. -/
theorem semReachable_sum {n : Nat} {s : SemState} (h : SemReachable n s) :
    s.value + s.inFlight = n := by
  induction h with
  | init => rfl
  | step hr hstep ih =>
    cases hstep with
    | acquire hv => dsimp only; omega
    | release hf => dsimp only; omega

/-- Links collected by the `parse_links` loop all pass the same-domain
filter. -/
theorem collectLinks_mem_same_domain (base_url base : Str) :
    ∀ (hrefs links : List Str), collectLinks base_url base hrefs = some links →
      ∀ l ∈ links, is_same_domain base_url l = true := by
  intro hrefs
  induction hrefs with
  | nil =>
    intro links h l hl
    simp only [collectLinks, Option.some.injEq] at h
    subst h
    simp at hl
  | cons href rest ih =>
    intro links h l hl
    simp only [collectLinks, Option.bind_eq_bind, Option.bind_eq_some] at h
    obtain ⟨link, hlink, h⟩ := h
    obtain ⟨norm, hnorm, h⟩ := h
    obtain ⟨tl, htl, h⟩ := h
    by_cases hsd : is_same_domain base_url norm = true
    · rw [if_pos hsd] at h
      simp only [Option.pure_def, Option.some.injEq] at h
      subst h
      rcases List.mem_cons.mp hl with h1 | h1
      · exact h1 ▸ hsd
      · exact ih tl htl l h1
    · rw [if_neg hsd] at h
      simp only [Option.pure_def, Option.some.injEq] at h
      subst h
      exact ih tl htl l hl

/-- `splitNetloc` on an explicit `//`-headed string. -/
theorem splitNetloc_cons_cons (r : Str) :
    splitNetloc ('/' :: '/' :: r) =
      (r.takeWhile (fun c => !isNetlocDelim c), r.dropWhile (fun c => !isNetlocDelim c)) := rfl

/-- `splitScheme` on a string with an explicit scheme-colon prefix. -/
theorem splitScheme_build (s rest2 : Str) (hs0 : s ≠ [])
    (hs1 : isAsciiAlpha s.headI = true) (hs2 : ∀ c ∈ s, isSchemeChar c = true) :
    splitScheme (s ++ ':' :: rest2) = (s.map Char.toLower, rest2) := by
  have hsplit := split_at_stop (fun c => c != ':') s ':' rest2
    (fun c hc => (schemeChar_facts (hs2 c hc)).1) (by decide)
  simp only [splitScheme, hsplit.1, hsplit.2]
  rw [if_pos ⟨hs0, hs1, hs2⟩]

/-- `splitNetloc` on an explicit netloc followed by a delimiter-headed (or
empty) remainder. -/
theorem splitNetloc_build (h rest : Str)
    (hh : ∀ c ∈ h, isNetlocDelim c = false)
    (hrest : rest = [] ∨ ∃ d t, rest = d :: t ∧ isNetlocDelim d = true) :
    splitNetloc ('/' :: '/' :: (h ++ rest)) = (h, rest) := by
  rw [splitNetloc_cons_cons]
  have hq : ∀ c ∈ h, (!isNetlocDelim c) = true := fun c hc => by rw [hh c hc]; rfl
  rcases hrest with rfl | ⟨d, t, rfl, hd⟩
  · have hall := takeWhile_all (fun c => !isNetlocDelim c) h hq
    rw [List.append_nil, hall.1, hall.2]
  · have hstop := split_at_stop (fun c => !isNetlocDelim c) h d t hq
      (by show (!isNetlocDelim d) = false; rw [hd]; rfl)
    rw [hstop.1, hstop.2]

/-- `splitFragment` across `#`-free content followed by an optional fragment
segment. -/
theorem splitFragment_build (u fseg : Str) (hu : ∀ c ∈ u, (c != '#') = true)
    (hf : fseg = [] ∨ ∃ f, fseg = '#' :: f) :
    splitFragment (u ++ fseg) = (u, fseg.tail) := by
  rcases hf with rfl | ⟨f, rfl⟩
  · have hall := takeWhile_all (fun c => c != '#') u hu
    simp only [splitFragment, List.append_nil, hall.1, hall.2]
  · have hstop := split_at_stop (fun c => c != '#') u '#' f hu (by decide)
    simp only [splitFragment, hstop.1, hstop.2]

/-- `splitQuery` across `?`-free content followed by an optional query
segment. -/
theorem splitQuery_build (u qseg : Str) (hu : ∀ c ∈ u, (c != '?') = true)
    (hqs : qseg = [] ∨ ∃ q, qseg = '?' :: q) :
    splitQuery (u ++ qseg) = (u, qseg.tail) := by
  rcases hqs with rfl | ⟨q, rfl⟩
  · have hall := takeWhile_all (fun c => c != '?') u hu
    simp only [splitQuery, List.append_nil, hall.1, hall.2]
  · have hstop := split_at_stop (fun c => c != '?') u '?' q hu (by decide)
    simp only [splitQuery, hstop.1, hstop.2]

/-- `urlsplit` of a URL assembled from an explicit scheme, netloc, path,
optional query segment (with its `?`) and optional fragment segment (with its
`#`): each component is recovered exactly, with the scheme lowercased. -/
theorem urlsplitD_build (s h p qseg fseg : Str)
    (hs0 : s ≠ []) (hs1 : isAsciiAlpha s.headI = true)
    (hs2 : ∀ c ∈ s, isSchemeChar c = true)
    (hh : ∀ c ∈ h, isNetlocDelim c = false ∧ isUnsafeByte c = false ∧ c ≠ '[' ∧ c ≠ ']' ∧ c.toNat < 128)
    (hp0 : p = [] ∨ ∃ t, p = '/' :: t)
    (hp : ∀ c ∈ p, (c != '?') = true ∧ (c != '#') = true ∧ isUnsafeByte c = false)
    (hq0 : qseg = [] ∨ ∃ q, qseg = '?' :: q)
    (hq : ∀ c ∈ qseg, (c != '#') = true ∧ isUnsafeByte c = false)
    (hf0 : fseg = [] ∨ ∃ f, fseg = '#' :: f)
    (hf : ∀ c ∈ fseg, isUnsafeByte c = false) :
    urlsplitD [] (s ++ ':' :: '/' :: '/' :: (h ++ (p ++ qseg ++ fseg))) =
      some ⟨s.map Char.toLower, h, p, qseg.tail, fseg.tail⟩ := by
  have hclean : preClean (s ++ ':' :: '/' :: '/' :: (h ++ (p ++ qseg ++ fseg)))
      = s ++ ':' :: '/' :: '/' :: (h ++ (p ++ qseg ++ fseg)) := by
    apply preClean_eq_self
    · right
      cases s with
      | nil => exact absurd rfl hs0
      | cons c s2 =>
        have hc0 := (schemeChar_facts (hs2 c (List.mem_cons_self _ _))).2.2
        simpa using hc0
    · intro c hc
      rcases List.mem_append.mp hc with hc | hc
      · exact (schemeChar_facts (hs2 c hc)).2.1
      · rcases List.mem_cons.mp hc with rfl | hc
        · decide
        · rcases List.mem_cons.mp hc with rfl | hc
          · decide
          · rcases List.mem_cons.mp hc with rfl | hc
            · decide
            · rcases List.mem_append.mp hc with hc | hc
              · exact (hh c hc).2.1
              · rcases List.mem_append.mp hc with hc | hc
                · rcases List.mem_append.mp hc with hc | hc
                  · exact (hp c hc).2.2
                  · exact (hq c hc).2
                · exact hf c hc
  have hrest : p ++ qseg ++ fseg = [] ∨
      ∃ d t, p ++ qseg ++ fseg = d :: t ∧ isNetlocDelim d = true := by
    rcases hp0 with rfl | ⟨t, rfl⟩
    · rcases hq0 with rfl | ⟨q, rfl⟩
      · rcases hf0 with rfl | ⟨f, rfl⟩
        · left; rfl
        · right; exact ⟨'#', f, rfl, by decide⟩
      · right; exact ⟨'?', q ++ fseg, by simp, by decide⟩
    · right; exact ⟨'/', t ++ qseg ++ fseg, by simp, by decide⟩
  have hfrag : ∀ c ∈ p ++ qseg, (c != '#') = true := by
    intro c hc
    rcases List.mem_append.mp hc with hc | hc
    · exact (hp c hc).2.1
    · exact (hq c hc).1
  have hquery : ∀ c ∈ p, (c != '?') = true := fun c hc => (hp c hc).1
  simp only [urlsplitD]
  rw [hclean, splitScheme_build s _ hs0 hs1 hs2]
  dsimp only
  rw [splitNetloc_build h (p ++ qseg ++ fseg) (fun c hc => (hh c hc).1) hrest]
  dsimp only
  rw [if_neg (by
    rintro (hc | hc | ⟨c, hc, hge⟩)
    · exact (hh _ hc).2.2.1 rfl
    · exact (hh _ hc).2.2.2.1 rfl
    · exact absurd (hh c hc).2.2.2.2 (by omega))]
  rw [splitFragment_build (p ++ qseg) fseg hfrag hf0]
  dsimp only
  rw [splitQuery_build p qseg hquery hq0]
  dsimp only
  rw [if_neg (fun he => hs0 (List.map_eq_nil_iff.mp he))]

/-- `urlparse` of an assembled URL whose path has no semicolon: no params are
split off. -/
theorem urlparseD_build (s h p qseg fseg : Str)
    (hs0 : s ≠ []) (hs1 : isAsciiAlpha s.headI = true)
    (hs2 : ∀ c ∈ s, isSchemeChar c = true)
    (hh : ∀ c ∈ h, isNetlocDelim c = false ∧ isUnsafeByte c = false ∧ c ≠ '[' ∧ c ≠ ']' ∧ c.toNat < 128)
    (hp0 : p = [] ∨ ∃ t, p = '/' :: t)
    (hp : ∀ c ∈ p, (c != '?') = true ∧ (c != '#') = true ∧ isUnsafeByte c = false)
    (hq0 : qseg = [] ∨ ∃ q, qseg = '?' :: q)
    (hq : ∀ c ∈ qseg, (c != '#') = true ∧ isUnsafeByte c = false)
    (hf0 : fseg = [] ∨ ∃ f, fseg = '#' :: f)
    (hf : ∀ c ∈ fseg, isUnsafeByte c = false)
    (hsemi : ';' ∉ p) :
    urlparseD [] (s ++ ':' :: '/' :: '/' :: (h ++ (p ++ qseg ++ fseg))) =
      some ⟨s.map Char.toLower, h, p, [], qseg.tail, fseg.tail⟩ := by
  simp only [urlparseD, Option.bind_eq_bind]
  rw [urlsplitD_build s h p qseg fseg hs0 hs1 hs2 hh hp0 hp hq0 hq hf0 hf]
  simp only [Option.some_bind]
  rw [if_neg (fun hc => hsemi hc.2)]
  rfl

/-- `normalize_url` of an assembled URL: the scheme is lowercased, the host
kept verbatim, the query and fragment dropped, and every trailing slash of
the path removed. -/
theorem normalize_url_build (s h p qseg fseg : Str)
    (hs0 : s ≠ []) (hs1 : isAsciiAlpha s.headI = true)
    (hs2 : ∀ c ∈ s, isSchemeChar c = true)
    (hh : ∀ c ∈ h, isNetlocDelim c = false ∧ isUnsafeByte c = false ∧ c ≠ '[' ∧ c ≠ ']' ∧ c.toNat < 128)
    (hp0 : p = [] ∨ ∃ t, p = '/' :: t)
    (hp : ∀ c ∈ p, (c != '?') = true ∧ (c != '#') = true ∧ isUnsafeByte c = false)
    (hq0 : qseg = [] ∨ ∃ q, qseg = '?' :: q)
    (hq : ∀ c ∈ qseg, (c != '#') = true ∧ isUnsafeByte c = false)
    (hf0 : fseg = [] ∨ ∃ f, fseg = '#' :: f)
    (hf : ∀ c ∈ fseg, isUnsafeByte c = false)
    (hsemi : ';' ∉ p) :
    normalize_url (s ++ ':' :: '/' :: '/' :: (h ++ (p ++ qseg ++ fseg))) =
      some (s.map Char.toLower ++ ':' :: '/' :: '/' ::
        (h ++ p.rdropWhile (fun c => c == '/'))) := by
  simp only [normalize_url, Option.bind_eq_bind]
  rw [urlparseD_build s h p qseg fseg hs0 hs1 hs2 hh hp0 hp hq0 hq hf0 hf hsemi]
  simp only [Option.some_bind, Option.pure_def, Option.some.injEq]
  have hs3 : S "://" = ':' :: '/' :: '/' :: [] := rfl
  simp [hs3, List.append_assoc]

/-- Elements of `preClean`'s output are never unsafe bytes. -/
theorem preClean_no_unsafe (u : Str) : ∀ c ∈ preClean u, isUnsafeByte c = false := by
  intro c hc
  unfold preClean at hc
  have hm := List.mem_filter.mp hc
  simpa using hm.2

/-- The remainder from `splitNetloc` is a sublist of the input. -/
theorem splitNetloc_snd_sublist (r : Str) : (splitNetloc r).2.Sublist r := by
  simp only [splitNetloc]
  split
  · exact ((List.dropWhile_sublist _).trans (List.sublist_cons_self _ _)).trans
      (List.sublist_cons_self _ _)
  · exact List.Sublist.refl _

/-- Netloc elements are never `/`, `?` or `#`. -/
theorem splitNetloc_fst_not_delim (r : Str) :
    ∀ c ∈ (splitNetloc r).1, isNetlocDelim c = false := by
  intro c hc
  simp only [splitNetloc] at hc
  split at hc
  · have hw := List.mem_takeWhile_imp hc
    simpa using hw
  · simp at hc

/-- `dropWhile` output is empty or headed by an element failing the
predicate. -/
theorem dropWhile_shape {α : Type} (q : α → Bool) (l : List α) :
    l.dropWhile q = [] ∨ ∃ d t, l.dropWhile q = d :: t ∧ q d = false := by
  induction l with
  | nil => exact Or.inl rfl
  | cons a t ih =>
    by_cases ha : q a = true
    · rw [List.dropWhile_cons_of_pos ha]
      exact ih
    · rw [List.dropWhile_cons_of_neg ha]
      exact Or.inr ⟨a, t, rfl, by simpa using ha⟩

/-- Either no netloc was recognized (`//` absent) or the remainder is empty or
delimiter-headed. -/
theorem splitNetloc_cases (r : Str) :
    splitNetloc r = ([], r) ∨
    ((splitNetloc r).2 = [] ∨ ∃ d t, (splitNetloc r).2 = d :: t ∧ isNetlocDelim d = true) := by
  simp only [splitNetloc]
  split
  · right
    rcases dropWhile_shape (fun c => !isNetlocDelim c) _ with hd | ⟨d, t, hd, hq⟩
    · exact Or.inl hd
    · exact Or.inr ⟨d, t, hd, by simpa using hq⟩
  · exact Or.inl rfl

/-- Path characters survive both the fragment and the query split. -/
theorem splitQF_path_facts (v : Str) :
    ∀ c ∈ (splitQuery (splitFragment v).1).1,
      (c != '?') = true ∧ (c != '#') = true ∧ c ∈ v := by
  intro c hc
  simp only [splitQuery, splitFragment] at hc
  have h1 := List.mem_takeWhile_imp hc
  have h2 : c ∈ v.takeWhile (fun c => c != '#') := (List.takeWhile_sublist _).mem hc
  have h4 := List.mem_takeWhile_imp h2
  exact ⟨h1, by simpa using h4, (List.takeWhile_sublist _).mem h2⟩

/-- When the pre-split remainder is empty or delimiter-headed, the path is
empty or slash-headed. -/
theorem splitQF_path_shape (v : Str)
    (hv : v = [] ∨ ∃ d t, v = d :: t ∧ isNetlocDelim d = true) :
    (splitQuery (splitFragment v).1).1 = [] ∨
      ∃ t, (splitQuery (splitFragment v).1).1 = '/' :: t := by
  rcases hv with rfl | ⟨d, t, rfl, hd⟩
  · exact Or.inl rfl
  · have hd3 : d = '/' ∨ d = '?' ∨ d = '#' := by
      simpa [isNetlocDelim, or_assoc] using hd
    rcases hd3 with rfl | rfl | rfl
    · right
      simp only [splitFragment, splitQuery]
      rw [List.takeWhile_cons_of_pos (by decide), List.takeWhile_cons_of_pos (by decide)]
      exact ⟨_, rfl⟩
    · left
      simp only [splitFragment, splitQuery]
      rw [List.takeWhile_cons_of_pos (by decide), List.takeWhile_cons_of_neg (by decide)]
    · left
      simp only [splitFragment, splitQuery]
      rw [List.takeWhile_cons_of_neg (by decide)]
      rfl

/-- Inversion for the scheme component of `splitScheme`: either no scheme was
detected, or the scheme is a nonempty lowercased run of scheme characters
headed by an ASCII letter. -/
theorem splitScheme_fst_inv (u : Str) :
    (splitScheme u).1 = [] ∨
      ((splitScheme u).1 ≠ [] ∧ (splitScheme u).1.map Char.toLower = (splitScheme u).1 ∧
       isAsciiAlpha (splitScheme u).1.headI = true ∧
       ∀ c ∈ (splitScheme u).1, isSchemeChar c = true) := by
  cases hd : u.dropWhile (fun c => c != ':') with
  | nil =>
    left
    simp only [splitScheme, hd]
  | cons a rest =>
    by_cases hcond : (u.takeWhile (fun c => c != ':') ≠ [] ∧
        isAsciiAlpha (u.takeWhile (fun c => c != ':')).headI = true ∧
        ∀ c ∈ u.takeWhile (fun c => c != ':'), isSchemeChar c = true)
    · have hsp1 : (splitScheme u).1 = (u.takeWhile (fun c => c != ':')).map Char.toLower := by
        simp only [splitScheme, hd]
        rw [if_pos hcond]
      rw [hsp1]
      right
      obtain ⟨hne, hhead, hall⟩ := hcond
      obtain ⟨c0, t0, hpre⟩ : ∃ c0 t0, u.takeWhile (fun c => c != ':') = c0 :: t0 := by
        cases hx : u.takeWhile (fun c => c != ':') with
        | nil => exact absurd hx hne
        | cons c0 t0 => exact ⟨c0, t0, rfl⟩
      rw [hpre] at hhead hall ⊢
      refine ⟨by simp, map_toLower_idem _, ?_, ?_⟩
      · have hhead2 : isAsciiAlpha c0 = true := by simpa using hhead
        simpa using toLower_asciiAlpha hhead2
      · intro c hc
        obtain ⟨c1, hc1, rfl⟩ := List.mem_map.mp hc
        exact toLower_schemeChar (hall c1 hc1)
    · left
      simp only [splitScheme, hd]
      rw [if_neg hcond]

/-- Inversion for `urlsplitD`: syntactic facts about every component of a
successful split. -/
theorem urlsplitD_inv (dflt url : Str) (r : SplitResult)
    (h : urlsplitD dflt url = some r) :
    (r.scheme = dflt ∨ (r.scheme ≠ [] ∧ r.scheme.map Char.toLower = r.scheme ∧
       isAsciiAlpha r.scheme.headI = true ∧ ∀ c ∈ r.scheme, isSchemeChar c = true)) ∧
    (∀ c ∈ r.netloc, isNetlocDelim c = false ∧ isUnsafeByte c = false ∧ c ≠ '[' ∧ c ≠ ']' ∧ c.toNat < 128) ∧
    (∀ c ∈ r.path, (c != '?') = true ∧ (c != '#') = true ∧ isUnsafeByte c = false) ∧
    (r.netloc ≠ [] → r.path = [] ∨ ∃ t, r.path = '/' :: t) := by
  simp only [urlsplitD] at h
  by_cases hbr : ('[' ∈ (splitNetloc (splitScheme (preClean url)).2).1 ∨
                  ']' ∈ (splitNetloc (splitScheme (preClean url)).2).1 ∨
                  ∃ c ∈ (splitNetloc (splitScheme (preClean url)).2).1, 128 ≤ c.toNat)
  · rw [if_pos hbr] at h
    exact absurd h (by simp)
  · rw [if_neg hbr] at h
    have hr := Option.some.inj h
    subst hr
    refine ⟨?_, ?_, ?_, ?_⟩
    · rcases splitScheme_fst_inv (preClean url) with he | hprops
      · rw [if_pos he]
        exact Or.inl rfl
      · rw [if_neg hprops.1]
        exact Or.inr hprops
    · intro c hc
      have hsub : c ∈ preClean url :=
        ((splitNetloc_fst_sublist _).trans (splitScheme_snd_sublist _)).mem hc
      refine ⟨splitNetloc_fst_not_delim _ c hc, preClean_no_unsafe url c hsub,
        fun he => hbr (Or.inl (he ▸ hc)), fun he => hbr (Or.inr (Or.inl (he ▸ hc))), ?_⟩
      by_contra hge
      exact hbr (Or.inr (Or.inr ⟨c, hc, by omega⟩))
    · intro c hc
      obtain ⟨h1, h2, h3⟩ := splitQF_path_facts _ c hc
      have hsub : c ∈ preClean url :=
        ((splitNetloc_snd_sublist _).trans (splitScheme_snd_sublist _)).mem h3
      exact ⟨h1, h2, preClean_no_unsafe url c hsub⟩
    · intro hn
      rcases splitNetloc_cases (splitScheme (preClean url)).2 with hcase | hcase
      · exact absurd (congrArg Prod.fst hcase) hn
      · exact splitQF_path_shape _ hcase

/-- `splitParams` returns an initial segment of its input as the path. -/
theorem splitParams_fst_decomp (u : Str) : ∃ t, (splitParams u).1 ++ t = u := by
  simp only [splitParams]
  split
  · have hdecomp : (u.reverse.dropWhile (fun c => c != '/')).reverse ++
        (u.reverse.takeWhile (fun c => c != '/')).reverse = u := by
      rw [← List.reverse_append, List.takeWhile_append_dropWhile, List.reverse_reverse]
    have htake : u.take (u.length - (u.reverse.takeWhile (fun c => c != '/')).reverse.length)
        = (u.reverse.dropWhile (fun c => c != '/')).reverse := by
      have h0 : ((u.reverse.dropWhile (fun c => c != '/')).reverse ++
          (u.reverse.takeWhile (fun c => c != '/')).reverse).take
            (((u.reverse.dropWhile (fun c => c != '/')).reverse ++
              (u.reverse.takeWhile (fun c => c != '/')).reverse).length -
             (u.reverse.takeWhile (fun c => c != '/')).reverse.length)
          = (u.reverse.dropWhile (fun c => c != '/')).reverse := by
        have hlen2 : ((u.reverse.dropWhile (fun c => c != '/')).reverse ++
            (u.reverse.takeWhile (fun c => c != '/')).reverse).length -
            (u.reverse.takeWhile (fun c => c != '/')).reverse.length
          = (u.reverse.dropWhile (fun c => c != '/')).reverse.length := by
          simp [List.length_append]
        rw [hlen2, List.take_left]
      rw [hdecomp] at h0
      exact h0
    split
    · refine ⟨(u.reverse.takeWhile (fun c => c != '/')).reverse.dropWhile (fun c => c != ';'), ?_⟩
      rw [htake, List.append_assoc, List.takeWhile_append_dropWhile, hdecomp]
    · exact ⟨[], List.append_nil u⟩
  · exact ⟨u.dropWhile (fun c => c != ';'), List.takeWhile_append_dropWhile _ _⟩

/-- Membership transfers along an initial-segment decomposition. -/
theorem mem_of_decomp {α : Type} {A u : List α} (h : ∃ t, A ++ t = u) :
    ∀ c ∈ A, c ∈ u := by
  obtain ⟨t, rfl⟩ := h
  intro c hc
  exact List.mem_append_left _ hc

/-- Empty-or-slash-headed shape transfers to initial segments. -/
theorem shape_of_decomp {A u : Str} (h : ∃ t, A ++ t = u)
    (hu : u = [] ∨ ∃ t2, u = '/' :: t2) : A = [] ∨ ∃ t2, A = '/' :: t2 := by
  obtain ⟨t, rfl⟩ := h
  cases A with
  | nil => exact Or.inl rfl
  | cons a A2 =>
    rcases hu with he | ⟨t2, ht⟩
    · simp at he
    · simp only [List.cons_append, List.cons.injEq] at ht
      exact Or.inr ⟨A2, by rw [ht.1]⟩

/-- Inversion for `urlparseD`: the same component facts, with the params
split taken into account (the path is an initial segment of the split
path). -/
theorem urlparseD_inv (dflt url : Str) (r : ParseResult)
    (h : urlparseD dflt url = some r) :
    (r.scheme = dflt ∨ (r.scheme ≠ [] ∧ r.scheme.map Char.toLower = r.scheme ∧
       isAsciiAlpha r.scheme.headI = true ∧ ∀ c ∈ r.scheme, isSchemeChar c = true)) ∧
    (∀ c ∈ r.netloc, isNetlocDelim c = false ∧ isUnsafeByte c = false ∧ c ≠ '[' ∧ c ≠ ']' ∧ c.toNat < 128) ∧
    (∀ c ∈ r.path, (c != '?') = true ∧ (c != '#') = true ∧ isUnsafeByte c = false) ∧
    (r.netloc ≠ [] → r.path = [] ∨ ∃ t, r.path = '/' :: t) := by
  simp only [urlparseD, Option.bind_eq_bind] at h
  cases hsplit : urlsplitD dflt url with
  | none =>
    rw [hsplit] at h
    exact absurd h (by simp)
  | some s0 =>
    rw [hsplit] at h
    simp only [Option.some_bind] at h
    obtain ⟨hscheme, hnet, hpath, hshape⟩ := urlsplitD_inv dflt url s0 hsplit
    split at h
    · simp only [Option.pure_def, Option.some.injEq] at h
      subst h
      have hdec := splitParams_fst_decomp s0.path
      refine ⟨hscheme, hnet, ?_, ?_⟩
      · intro c hc
        exact hpath c (mem_of_decomp hdec c hc)
      · intro hn
        exact shape_of_decomp hdec (hshape hn)
    · simp only [Option.pure_def, Option.some.injEq] at h
      subst h
      exact ⟨hscheme, hnet, hpath, hshape⟩

/-- Dropping trailing slashes yields an initial segment. -/
theorem rdropWhile_decomp (q : Char → Bool) (l : Str) :
    ∃ t, l.rdropWhile q ++ t = l := by
  refine ⟨(l.reverse.takeWhile q).reverse, ?_⟩
  rw [List.rdropWhile, ← List.reverse_append, List.takeWhile_append_dropWhile,
    List.reverse_reverse]

/-! ## Claim theorems -/

/-- Claim C1, counterexample: a fetch of a page answering 404 with an HTML
body containing a link leaves `error_count` unchanged (it does not increment
it by 1, contrary to the claim); the page is merely skipped. -/
theorem claim_C1_counterexample :
    (fetch_and_process (S "https://example.com") ⟨[], [], 0, 0, []⟩
      (S "https://example.com/p")
      (.response 404 (S "text/html") [S "/a"])).error_count ≠ 0 + 1 ∧
    fetch_and_process (S "https://example.com") ⟨[], [], 0, 0, []⟩
      (S "https://example.com/p")
      (.response 404 (S "text/html") [S "/a"]) = ⟨[], [], 0, 0, []⟩ := by
  exact ⟨by decide, rfl⟩

/-- Claim C1, amended: for every fetched URL whose response has HTTP status
`>= 400`, the fetch-and-expand operation leaves the crawl state entirely
unchanged — `pages_crawled` unchanged, `error_count` unchanged (the failure
is recorded as a skipped page, not an error), and no links enqueued.  This
holds for both `Crawler.fetch_and_process` and
`WebCrawler.fetch_and_process`. -/
theorem claim_C1_status_ge_400_skips (base_url url : Str) (st : CrawlState)
    (wst : WebState) (status : Nat) (ctype : Str) (hrefs : List Str)
    (h : 400 ≤ status) :
    fetch_and_process base_url st url (.response status ctype hrefs) = st ∧
    web_fetch_and_process base_url wst url (.response status ctype hrefs) = wst := by
  constructor
  · simp only [fetch_and_process]
    rw [if_pos h]
  · simp only [web_fetch_and_process]
    rw [if_pos (by omega : status ≠ 200)]

/-- Witness for `claim_C1_status_ge_400_skips` at status 404 on a concrete
state. -/
theorem claim_C1_witness :
    (400 ≤ 404) ∧
    (fetch_and_process (S "https://example.com")
        ⟨[S "https://example.com/q"], [S "https://example.com"], 3, 1,
         [S "https://example.com"]⟩
        (S "https://example.com/p") (.response 404 (S "text/html") [S "/a"])
      = ⟨[S "https://example.com/q"], [S "https://example.com"], 3, 1,
         [S "https://example.com"]⟩ ∧
     web_fetch_and_process (S "https://example.com")
        ⟨.running, .running, [], [], 2, 0⟩
        (S "https://example.com/p") (.response 404 (S "text/html") [S "/a"])
      = ⟨.running, .running, [], [], 2, 0⟩) :=
  ⟨by decide, claim_C1_status_ge_400_skips (S "https://example.com")
    (S "https://example.com/p") _ _ 404 (S "text/html") [S "/a"] (by decide)⟩

/-- Claim C2 (code bug): `stop_crawl` writes `"stopped"` only into the
session dictionary, while the `WebCrawler.start` loop guard reads the
crawler's own `self.status` attribute, which nothing ever sets to
`"stopped"`.  In the trace below the stop signal arrives while one URL is
still queued: the session label is `stopped`, yet the loop keeps crawling
(a second page is fetched after the stop) and the `finally` block then
relabels the session `completed` — the `stopped` state is not terminal,
refuting the claim. -/
theorem claim_C2_stop_overwritten :
    (webRun (S "https://example.com") (webInit (S "https://example.com"))
        [.loopIter (.response 200 (S "text/html") [S "/b"]),
         .stopSignal]).sessionStatus = WebStatus.stopped ∧
    (webRun (S "https://example.com") (webInit (S "https://example.com"))
        [.loopIter (.response 200 (S "text/html") [S "/b"]),
         .stopSignal]).pages_crawled = 1 ∧
    (webRun (S "https://example.com") (webInit (S "https://example.com"))
        [.loopIter (.response 200 (S "text/html") [S "/b"]),
         .stopSignal,
         .loopIter (.response 200 (S "text/html") []),
         .finishStep]).sessionStatus = WebStatus.completed ∧
    (webRun (S "https://example.com") (webInit (S "https://example.com"))
        [.loopIter (.response 200 (S "text/html") [S "/b"]),
         .stopSignal,
         .loopIter (.response 200 (S "text/html") []),
         .finishStep]).pages_crawled = 2 :=
  ⟨rfl, rfl, rfl, rfl⟩

/-- Claim C3: in every state reachable by the dispatch loop from the freshly
initialized crawler, the list of URLs for which a fetch was dispatched has no
duplicates (each canonical URL is dispatched at most once), and every
dispatched URL is in the visited set (it was added there before or at
dispatch; a dequeued URL already in the visited set is discarded without a
second dispatch, as the `dispatch_skip` step shows). -/
theorem claim_C3_dispatch_at_most_once (base_url : Str) (st : CrawlState)
    (h : CrawlReachable base_url (initState base_url) st) :
    st.dispatched.Nodup ∧ ∀ u ∈ st.dispatched, u ∈ st.visited :=
  crawlReachable_inv h List.nodup_nil (by intro u hu; simp [initState] at hu)

/-- Witness for `claim_C3_dispatch_at_most_once`: a two-step trace that
dispatches the seed and then re-enqueues and discards it. -/
theorem claim_C3_witness :
    (⟨[], [S "https://example.com"], 0, 0, [S "https://example.com"]⟩ :
        CrawlState).dispatched.Nodup ∧
    ∀ u ∈ (⟨[], [S "https://example.com"], 0, 0, [S "https://example.com"]⟩ :
        CrawlState).dispatched,
      u ∈ (⟨[], [S "https://example.com"], 0, 0, [S "https://example.com"]⟩ :
        CrawlState).visited :=
  claim_C3_dispatch_at_most_once (S "https://example.com") _
    (CrawlReachable.step (CrawlReachable.refl _)
      (CrawlStep.dispatch_new _ (S "https://example.com") [] rfl (by simp [initState])))

/-- Claim C4, counterexample: the input `"foo"` cannot be parsed into a
scheme and a host (both parse components are empty), yet `normalize_url`
does not fail: it returns the value `"://foo"`. -/
theorem claim_C4_counterexample :
    normalize_url (S "foo") = some (S "://foo") ∧
    urlparseD [] (S "foo") = some ⟨[], [], S "foo", [], [], []⟩ :=
  ⟨rfl, rfl⟩

/-- Claim C4, amended: `normalize_url` does not fail on inputs that cannot be
parsed into a scheme and a host; on every bracket-free all-ASCII input it
returns a value assembled from the possibly empty parsed components — e.g.
`"://foo"` for the host-less, scheme-less input `"foo"`.  (`urlparse` raises
`ValueError` only for netlocs that carry brackets or non-ASCII characters
rejected under NFKC normalization; it never raises a `MalformedURL`-style
error for a missing scheme or host.) -/
theorem claim_C4_no_failure (url : Str) (h1 : '[' ∉ url) (h2 : ']' ∉ url)
    (h3 : ∀ c ∈ url, c.toNat < 128) :
    ∃ v, normalize_url url = some v := by
  obtain ⟨r, hr⟩ := urlparseD_isSome [] url h1 h2 h3
  refine ⟨r.scheme ++ S "://" ++ r.netloc ++ r.path.rdropWhile (fun c => c == '/'), ?_⟩
  simp [normalize_url, hr]

/-- Witness for `claim_C4_no_failure` at the scheme-less, host-less input
`"foo"`. -/
theorem claim_C4_witness :
    ('[' ∉ S "foo" ∧ ']' ∉ S "foo" ∧ ∀ c ∈ S "foo", c.toNat < 128) ∧
    ∃ v, normalize_url (S "foo") = some v :=
  ⟨by decide, claim_C4_no_failure (S "foo") (by decide) (by decide) (by decide)⟩

/-- Claim C5, counterexample: on `"https://example.com/a//"` the claim
requires exactly one trailing slash to be stripped (output
`"https://example.com/a/"`), but `normalize_url` strips them all and returns
`"https://example.com/a"`. -/
theorem claim_C5_counterexample :
    normalize_url (S "https://example.com/a//") = some (S "https://example.com/a") ∧
    S "https://example.com/a" ≠ S "https://example.com/a/" :=
  ⟨rfl, by decide⟩

/-- Claim C8, counterexample: `normalize_url` is not idempotent on the valid
(parseable, absolute) URL `"https://example.com/a;b/"`: one application gives
`"https://example.com/a;b"`, a second application splits `";b"` off as
`urlparse` params and gives the different value `"https://example.com/a"`. -/
theorem claim_C8_counterexample :
    normalize_url (S "https://example.com/a;b/") = some (S "https://example.com/a;b") ∧
    normalize_url (S "https://example.com/a;b") = some (S "https://example.com/a") ∧
    S "https://example.com/a" ≠ S "https://example.com/a;b" :=
  ⟨rfl, rfl, by decide⟩

/-- Claim C6, counterexample: an anchor whose href resolves to
`ftp://example.com/x` — a non-http(s) scheme whose host equals the base
host — is NOT discarded: `parse_links` returns it, because the filter
compares only the host component. -/
theorem claim_C6_counterexample :
    parse_links (S "https://example.com") (S "https://example.com")
      [S "ftp://example.com/x"] = some [S "ftp://example.com/x"] ∧
    (urlparseD [] (S "ftp://example.com/x")).map ParseResult.scheme = some (S "ftp") ∧
    S "ftp" ≠ S "http" ∧ S "ftp" ≠ S "https" :=
  ⟨rfl, rfl, by decide, by decide⟩

/-- Claim C6, amended: every link returned by `parse_links` passed the
same-domain filter — its host component equals the base URL's host.  Links
resolving to a URL with an empty or different host (`mailto:`,
`javascript:alert(...)`, off-domain links) are discarded for that reason, but
the scheme itself is never inspected: a non-http(s) URL carrying the base
host is kept. -/
theorem claim_C6_links_same_host (base_url base : Str) (hrefs links : List Str)
    (l : Str) (h : parse_links base_url base hrefs = some links) (hl : l ∈ links) :
    is_same_domain base_url l = true := by
  simp only [parse_links, Option.map_eq_some'] at h
  obtain ⟨ls, hls, rfl⟩ := h
  exact collectLinks_mem_same_domain base_url base hrefs ls hls l
    (List.dedup_subset _ hl)

/-- Witness for `claim_C6_links_same_host` on the Scenario A anchor list. -/
theorem claim_C6_witness :
    is_same_domain (S "https://example.com") (S "https://example.com/a") = true :=
  claim_C6_links_same_host (S "https://example.com") (S "https://example.com")
    [S "/a", S "https://example.com/b/", S "https://other.com/c", S "#frag",
     S "mailto:x@example.com"]
    [S "https://example.com/a", S "https://example.com/b", S "https://example.com"]
    (S "https://example.com/a") rfl (List.mem_cons_self _ _)

/-- Claim C7: Scenario A — with base URL `https://example.com`, the anchor
hrefs `/a`, `https://example.com/b/`, `https://other.com/c`, `#frag` and
`mailto:x@example.com` yield exactly the three canonical links
`https://example.com/a`, `https://example.com/b` and `https://example.com`
(off-domain and host-less links excluded, the fragment collapsed to the base
page, duplicates removed by set semantics). -/
theorem claim_C7_scenarioA :
    parse_links (S "https://example.com") (S "https://example.com")
      [S "/a", S "https://example.com/b/", S "https://other.com/c", S "#frag",
       S "mailto:x@example.com"]
    = some [S "https://example.com/a", S "https://example.com/b",
            S "https://example.com"] :=
  rfl

/-- Claim C9: with concurrency limit `n`, every state of the semaphore
admission gate reachable from the initial state has at most `n`
fetch-and-expand operations past admission and not yet completed. -/
theorem claim_C9_concurrency_bound (n : Nat) (s : SemState)
    (h : SemReachable n s) : s.inFlight ≤ n := by
  have := semReachable_sum h
  omega

/-- Witness for `claim_C9_concurrency_bound`: after one admission on a
`Semaphore(10)`, one operation is in flight, at most ten. -/
theorem claim_C9_witness : (⟨9, 1⟩ : SemState).inFlight ≤ 10 :=
  claim_C9_concurrency_bound 10 ⟨9, 1⟩
    (SemReachable.step SemReachable.init (SemStep.acquire ⟨10, 0⟩ (by decide)))

/-- Claim C10: two input strings neither of which parses to a nonempty host
(empty `netloc` for both) are always reported same-domain, because the two
empty host strings compare equal. -/
theorem claim_C10_hostless_same_domain (u v : Str) (ru rv : ParseResult)
    (hu : urlparseD [] u = some ru) (hv : urlparseD [] v = some rv)
    (hnu : ru.netloc = []) (hnv : rv.netloc = []) :
    is_same_domain u v = true := by
  simp only [is_same_domain, hu, hv, hnu, hnv]
  rfl

/-- Witness for `claim_C10_hostless_same_domain` at the malformed pair
`("foo", "bar")`. -/
theorem claim_C10_witness : is_same_domain (S "foo") (S "bar") = true :=
  claim_C10_hostless_same_domain (S "foo") (S "bar")
    ⟨[], [], S "foo", [], [], []⟩ ⟨[], [], S "bar", [], [], []⟩ rfl rfl rfl rfl

/-- Claim C5, amended: for a syntactically parseable absolute URL assembled
from a scheme, a host, a path, an optional query and an optional fragment,
`normalize_url` returns the scheme lowercased, the host verbatim, and the
path with the query string, the fragment and ALL trailing slashes stripped
(a path ending in several slashes loses every one of them), provided the
path carries no semicolon (which would additionally be split off as
`urlparse` params). -/
theorem claim_C5_normalize_components (s h p qseg fseg : Str)
    (hs0 : s ≠ []) (hs1 : isAsciiAlpha s.headI = true)
    (hs2 : ∀ c ∈ s, isSchemeChar c = true)
    (hh : ∀ c ∈ h, isNetlocDelim c = false ∧ isUnsafeByte c = false ∧ c ≠ '[' ∧ c ≠ ']' ∧ c.toNat < 128)
    (hp0 : p = [] ∨ ∃ t, p = '/' :: t)
    (hp : ∀ c ∈ p, (c != '?') = true ∧ (c != '#') = true ∧ isUnsafeByte c = false)
    (hq0 : qseg = [] ∨ ∃ q, qseg = '?' :: q)
    (hq : ∀ c ∈ qseg, (c != '#') = true ∧ isUnsafeByte c = false)
    (hf0 : fseg = [] ∨ ∃ f, fseg = '#' :: f)
    (hf : ∀ c ∈ fseg, isUnsafeByte c = false)
    (hsemi : ';' ∉ p) :
    normalize_url (s ++ ':' :: '/' :: '/' :: (h ++ (p ++ qseg ++ fseg))) =
      some (s.map Char.toLower ++ ':' :: '/' :: '/' ::
        (h ++ p.rdropWhile (fun c => c == '/'))) :=
  normalize_url_build s h p qseg fseg hs0 hs1 hs2 hh hp0 hp hq0 hq hf0 hf hsemi

/-- Witness for `claim_C5_normalize_components` at
`HTTPS://Example.com/a//?q=1#frag`: the result is
`https://Example.com/a` — query, fragment and both trailing slashes gone,
scheme lowercased, host case preserved. -/
theorem claim_C5_witness :
    normalize_url (S "HTTPS" ++ ':' :: '/' :: '/' ::
        (S "Example.com" ++ (S "/a//" ++ S "?q=1" ++ S "#frag"))) =
      some ((S "HTTPS").map Char.toLower ++ ':' :: '/' :: '/' ::
        (S "Example.com" ++ (S "/a//").rdropWhile (fun c => c == '/'))) :=
  claim_C5_normalize_components (S "HTTPS") (S "Example.com") (S "/a//")
    (S "?q=1") (S "#frag")
    (by decide) (by decide) (by decide) (by decide)
    (Or.inr ⟨S "a//", rfl⟩) (by decide)
    (Or.inr ⟨S "q=1", rfl⟩) (by decide)
    (Or.inr ⟨S "frag", rfl⟩) (by decide)
    (by decide)

/-- Claim C8, amended: `normalize_url` is idempotent on every valid URL —
parseable with a detected scheme and a nonempty (bracket-free) host — whose
parsed path contains no semicolon: if `normalize_url x = some y` then
`normalize_url y = some y`.  (The counterexample shows the semicolon
restriction is necessary.) -/
theorem claim_C8_idempotent_no_semicolon (x y : Str) (r : ParseResult)
    (hx : urlparseD [] x = some r) (hs : r.scheme ≠ []) (hn : r.netloc ≠ [])
    (hsemi : ';' ∉ r.path) (hy : normalize_url x = some y) :
    normalize_url y = some y := by
  obtain ⟨hscheme, hnet, hpath, hshape⟩ := urlparseD_inv [] x r hx
  rcases hscheme with he | ⟨hne, hlow, hhead, hall⟩
  · exact absurd he hs
  have hy2 : y = r.scheme ++ S "://" ++ r.netloc ++ r.path.rdropWhile (fun c => c == '/') := by
    simp only [normalize_url, Option.bind_eq_bind, hx, Option.some_bind,
      Option.pure_def, Option.some.injEq] at hy
    exact hy.symm
  have hdec := rdropWhile_decomp (fun c => c == '/') r.path
  have hp2facts : ∀ c ∈ r.path.rdropWhile (fun c => c == '/'),
      (c != '?') = true ∧ (c != '#') = true ∧ isUnsafeByte c = false :=
    fun c hc => hpath c (mem_of_decomp hdec c hc)
  have hp2shape : r.path.rdropWhile (fun c => c == '/') = [] ∨
      ∃ t, r.path.rdropWhile (fun c => c == '/') = '/' :: t :=
    shape_of_decomp hdec (hshape hn)
  have hp2semi : ';' ∉ r.path.rdropWhile (fun c => c == '/') :=
    fun hc => hsemi (mem_of_decomp hdec ';' hc)
  have hb := normalize_url_build r.scheme r.netloc
    (r.path.rdropWhile (fun c => c == '/')) [] []
    hne hhead hall hnet hp2shape hp2facts (Or.inl rfl)
    (fun c hc => absurd hc (List.not_mem_nil c)) (Or.inl rfl)
    (fun c hc => absurd hc (List.not_mem_nil c)) hp2semi
  have hyeq : y = r.scheme ++ ':' :: '/' :: '/' ::
      (r.netloc ++ (r.path.rdropWhile (fun c => c == '/') ++ [] ++ [])) := by
    rw [hy2]
    have hs3 : S "://" = [':', '/', '/'] := rfl
    simp [hs3, List.append_assoc]
  rw [hyeq, hb]
  simp [hlow, List.rdropWhile_idempotent]

/-- Witness for `claim_C8_idempotent_no_semicolon`: normalizing
`https://example.com/a//` gives `https://example.com/a`, which normalizes to
itself. -/
theorem claim_C8_witness :
    normalize_url (S "https://example.com/a") = some (S "https://example.com/a") :=
  claim_C8_idempotent_no_semicolon (S "https://example.com/a//")
    (S "https://example.com/a")
    ⟨S "https", S "example.com", S "/a//", [], [], []⟩
    rfl (by decide) (by decide) (by decide) rfl

end NoDrift
